import Mathlib

/-!
# Verification of `python-scrapinghub` (items proxy and hubstorage test harness)

Shallow embedding of `src/scrapinghub/client/items.py` and
`src/tests/hubstorage/conftest.py`, with theorems settling claims about:

* offset-to-cursor translation in `Items._modify_iter_params`;
* the VCR cassette serializer (`pickle` → `zlib` → `base64` round trip);
* cassette normalization (endpoint / project-id / auth-header scrubbing);
* the job/collection cleanup helpers (`remove_all_jobs`, `_remove_job`,
  `clean_collection`).

Python dicts are modelled as association lists (`List (String × α)`) with the
dict operations appearing in the source; Python strings are Lean `String`s,
with character-list helpers for `str.replace` / `str.partition` /
`str.startswith`; Python byte strings are `List Nat` with entries below 256.
Stateful HTTP calls are modelled as operation traces (`JobOp`) or as
`Except`-valued backend oracles.
-/

set_option maxHeartbeats 1000000

namespace Spec2Proof

/-! ## Python dict primitives

`dictLookup` is `d[k]` / `d.get(k)`; `dictPopped` is the dict after
`d.pop(k, default)` or `del d[k]`; `dictSet` models `d[k] = v` (the
overwritten key's insertion position is not tracked: the pair is appended
after the remaining entries, which is exact for the `del d[k]; d[k] = v` and
`d.pop(k); d[k2] = v` sequences appearing in the source). -/

def dictLookup {α : Type} (d : List (String × α)) (k : String) : Option α :=
  match d.find? (fun p => p.1 == k) with
  | some p => some p.2
  | none => none

def dictPopped {α : Type} (d : List (String × α)) (k : String) : List (String × α) :=
  d.filter (fun p => p.1 != k)

def dictSet {α : Type} (d : List (String × α)) (k : String) (v : α) : List (String × α) :=
  dictPopped d k ++ [(k, v)]

def dictHasKey {α : Type} (d : List (String × α)) (k : String) : Bool :=
  (dictLookup d k).isSome

/-! ## Python string primitives -/

/-- Python `s.replace(old, new)` for the degenerate empty pattern: `new` is
inserted before every character and at the end. -/
def pyInterleave (new : List Char) : List Char → List Char
  | [] => new
  | c :: t => new ++ c :: pyInterleave new t

/-- Worker for Python `str.replace` with a nonempty pattern: scan left to
right, replacing each non-overlapping occurrence of `old` by `new`.  `fuel`
bounds the number of characters consumed; any `fuel ≥ s.length` gives the
exact result (`pyReplaceL` always supplies `s.length`). -/
def replaceFuel (old new : List Char) : Nat → List Char → List Char
  | _, [] => []
  | 0, s => s
  | fuel + 1, c :: t =>
    if old.isPrefixOf (c :: t) then new ++ replaceFuel old new fuel ((c :: t).drop old.length)
    else c :: replaceFuel old new fuel t

def pyReplaceL (s old new : List Char) : List Char :=
  if old = [] then pyInterleave new s else replaceFuel old new s.length s

/-- Python `s.replace(old, new)` (all non-overlapping occurrences, left to
right). -/
def pyReplace (s old new : String) : String :=
  (pyReplaceL s.toList old.toList new.toList).asString

/-- Python `a or b` on strings: `b` when `a` is falsy (empty). -/
def pyOrStr (a b : String) : String := if a = "" then b else a

/-- Python `s.startswith(p)`. -/
def pyStartswith (s p : String) : Bool := p.toList.isPrefixOf s.toList

/-- Occurrence of `p` as a contiguous substring (Python `p in s`). -/
def containsSubL (p : List Char) : List Char → Bool
  | [] => p.isEmpty
  | c :: t => p.isPrefixOf (c :: t) || containsSubL p t

/-- Python `p in s` on strings. -/
def pyInStr (p s : String) : Bool := containsSubL p.toList s.toList

def partitionBeforeL (sep : Char) : List Char → List Char
  | [] => []
  | c :: t => if c = sep then [] else c :: partitionBeforeL sep t

def partitionAfterL (sep : Char) : List Char → List Char
  | [] => []
  | c :: t => if c = sep then t else partitionAfterL sep t

/-- Python `s.partition(sep)[0]` for a one-character separator: the part
before the first occurrence (the whole string when absent). -/
def pyPartitionBefore (s : String) (sep : Char) : String :=
  (partitionBeforeL sep s.toList).asString

/-- Python `s.partition(sep)[2]` for a one-character separator: the part
after the first occurrence (empty when absent). -/
def pyPartitionAfter (s : String) (sep : Char) : String :=
  (partitionAfterL sep s.toList).asString

/-! ## `Items._modify_iter_params` (src/scrapinghub/client/items.py)

Parameter values reaching the items proxy are `None`, integers or strings;
`pyTruthy` is Python truthiness for those, `pyStr` is `str()` as used by
`"{}/{}".format(self.key, offset)`. -/

inductive PyParam where
  | none
  | int (n : Int)
  | str (s : String)
  deriving DecidableEq

def pyTruthy : PyParam → Bool
  | PyParam.none => false
  | PyParam.int n => n != 0
  | PyParam.str s => s != ""

def pyStr : PyParam → String
  | PyParam.none => "None"
  | PyParam.int n => toString n
  | PyParam.str s => s

/-- Modelled from the spec: `_Proxy._modify_iter_params` (the base class in
`scrapinghub/client/utils.py` is not under `src/`).  Per the spec the base
proxy adds no semantics beyond the underlying paginated fetch — in particular
nothing involving `offset` or `start` — so it is modelled as the identity on
the params dict. -/
def proxyModifyIterParams (params : List (String × PyParam)) : List (String × PyParam) :=
  params

/-- Embedding of `Items._modify_iter_params` (items.py lines 48-58): call the
base implementation, pop `offset` (default `None`), and when the popped value
is truthy set `start` to `"{}/{}".format(self.key, offset)`. -/
def modifyIterParams (key : String) (params : List (String × PyParam)) :
    List (String × PyParam) :=
  let params := proxyModifyIterParams params
  let offset := (dictLookup params "offset").getD PyParam.none
  let params := dictPopped params "offset"
  if pyTruthy offset then
    dictSet params "start" (PyParam.str (key ++ "/" ++ pyStr offset))
  else
    params

/-! ## Byte-level codecs

Models of the three stdlib codecs composed by `VCRGzipSerializer`
(`conftest.py` lines 78-91).  Bytes are `Nat`s below 256.

* `encNat`/`decNat`: a base-128 varint, the primitive of the pickle model.
* `b64EncodeList`/`b64DecodeList`: genuine RFC 4648 base64 (with `=`
  padding), the model of `base64.b64encode`/`b64decode`.
* `rleEncode`/`rleDecode`: model of `zlib.compress`/`zlib.decompress`.
  DEFLATE itself is outside this repository; the model is an executable
  invertible byte-stream compressor (run-length coding with runs capped at
  255), faithful to the contract the source relies on:
  `decompress (compress bs) = bs` on byte strings.
-/

/-- Little-endian base-128 varint digits of `n`; `fuel ≥ n` gives the exact
encoding (`encNat` supplies `fuel = n`). -/
def natToB7 : Nat → Nat → List Nat
  | 0, n => [n % 128]
  | fuel + 1, n => if n < 128 then [n] else (n % 128 + 128) :: natToB7 fuel (n / 128)

def encNat (n : Nat) : List Nat := natToB7 n n

def decNat : List Nat → Option (Nat × List Nat)
  | [] => none
  | b :: rest =>
    if b < 128 then some (b, rest)
    else
      match decNat rest with
      | some (m, rest') => some (b - 128 + 128 * m, rest')
      | none => none

def b64Alphabet : List Char :=
  "ABCDEFGHIJKLMNOPQRSTUVWXYZabcdefghijklmnopqrstuvwxyz0123456789+/".toList

def b64Char (n : Nat) : Char := b64Alphabet.getD n '='

def b64CharIdx (c : Char) : Option Nat := b64Alphabet.indexOf? c

/-- Model of `base64.b64encode` (then `.decode("utf8")`): three input bytes
become four alphabet characters; a final group of one or two bytes is padded
with `=`. -/
def b64EncodeList : List Nat → List Char
  | [] => []
  | [a] => [b64Char (a / 4), b64Char (a % 4 * 16), '=', '=']
  | [a, b] => [b64Char (a / 4), b64Char (a % 4 * 16 + b / 16), b64Char (b % 16 * 4), '=']
  | a :: b :: c :: rest =>
    b64Char (a / 4) :: b64Char (a % 4 * 16 + b / 16) :: b64Char (b % 16 * 4 + c / 64)
      :: b64Char (c % 64) :: b64EncodeList rest

/-- Model of `base64.b64decode` (after `.encode("utf8")`): reads four
characters at a time, honouring `=` padding; `none` on malformed input. -/
def b64DecodeList : List Char → Option (List Nat)
  | [] => some []
  | c1 :: c2 :: c3 :: c4 :: rest =>
    match b64CharIdx c1, b64CharIdx c2 with
    | some s1, some s2 =>
      if c3 = '=' then
        if c4 = '=' ∧ rest = [] then some [s1 * 4 + s2 / 16] else none
      else
        match b64CharIdx c3 with
        | some s3 =>
          if c4 = '=' then
            if rest = [] then some [s1 * 4 + s2 / 16, s2 % 16 * 16 + s3 / 4] else none
          else
            match b64CharIdx c4, b64DecodeList rest with
            | some s4, some ds =>
              some ((s1 * 4 + s2 / 16) :: (s2 % 16 * 16 + s3 / 4) :: (s3 % 4 * 64 + s4) :: ds)
            | _, _ => none
        | none => none
    | _, _ => none
  | _ => none

/-- Run-length encoder worker: `b` is the pending byte, seen `n` times
(`1 ≤ n ≤ 255`). -/
def rleEncodeAux (b n : Nat) : List Nat → List Nat
  | [] => [n, b]
  | c :: rest =>
    if c = b ∧ n < 255 then rleEncodeAux b (n + 1) rest
    else n :: b :: rleEncodeAux c 1 rest

def rleEncode : List Nat → List Nat
  | [] => []
  | b :: rest => rleEncodeAux b 1 rest

def rleDecode : List Nat → List Nat
  | n :: b :: rest => List.replicate n b ++ rleDecode rest
  | _ => []

/-- All entries of a byte string are genuine bytes. -/
def allBytes (l : List Nat) : Prop := ∀ x ∈ l, x < 256

/-! ## Cassette data model (src/tests/hubstorage/conftest.py)

A VCR cassette dict: a version and a list of recorded interactions, each a
request (method, uri, headers, possibly binary body) and a response (status,
headers, possibly binary body).  `NormConfig` carries the environment-derived
constants read at module import time. -/

structure HSRequest where
  method : String
  uri : String
  headers : List (String × String)
  body : List Nat
  deriving DecidableEq

structure HSResponse where
  status : Nat
  headers : List (String × String)
  body : List Nat
  deriving DecidableEq

structure HSInteraction where
  request : HSRequest
  response : HSResponse
  deriving DecidableEq

structure CassetteDict where
  version : Nat
  interactions : List HSInteraction
  deriving DecidableEq

/-- `DEFAULT_PROJECT_ID` (conftest.py line 18). -/
def DEFAULT_PROJECT_ID : String := "2222222"

/-- `DEFAULT_ENDPOINT` (conftest.py line 19). -/
def DEFAULT_ENDPOINT : String := "http://storage.vm.scrapinghub.com"

/-- Environment-derived constants used by `normalize_cassette`:
`testEndpoint` is `TEST_ENDPOINT` (`HS_ENDPOINT` env var, defaulting to
`DEFAULT_ENDPOINT`), `testProjectId` is `TEST_PROJECT_ID` (`HS_PROJECT_ID`,
defaulting to `DEFAULT_PROJECT_ID`), and `clientDefaultEndpoint` — modelled
from the spec, since `scrapinghub/client` is not under `src/` — is the
client's own `HubstorageClient.DEFAULT_ENDPOINT` used as the fallback in
`TEST_ENDPOINT or HubstorageClient.DEFAULT_ENDPOINT`. -/
structure NormConfig where
  testEndpoint : String
  testProjectId : String
  clientDefaultEndpoint : String
  deriving DecidableEq

/-- The fixed Authorization placeholder written by `normalize_cassette`
(conftest.py lines 65-71):
`"Basic " + b64encode(("f"*32 + ":").encode("utf-8")).decode("utf-8")`
(`Char.toNat` is exact UTF-8 for this all-ASCII credential). -/
def AUTH_PLACEHOLDER : String :=
  "Basic " ++ (b64EncodeList (((List.replicate 32 'f').asString ++ ":").toList.map Char.toNat)).asString

/-- Body of the `for interaction in cassette_dict["interactions"]` loop of
`normalize_cassette` (conftest.py lines 49-73): rewrite the request uri
(endpoint, then project id), and when an `Authorization` request header is
present delete it and append the fixed placeholder. -/
def normalizeInteraction (cfg : NormConfig) (i : HSInteraction) : HSInteraction :=
  let uri := pyReplace i.request.uri (pyOrStr cfg.testEndpoint cfg.clientDefaultEndpoint)
    DEFAULT_ENDPOINT
  let uri := pyReplace uri cfg.testProjectId DEFAULT_PROJECT_ID
  let headers :=
    if dictHasKey i.request.headers "Authorization" then
      dictSet (dictPopped i.request.headers "Authorization") "Authorization" AUTH_PLACEHOLDER
    else i.request.headers
  { i with request := { i.request with uri := uri, headers := headers } }

/-- `VCRGzipSerializer.normalize_cassette` (conftest.py lines 38-76). -/
def normalize_cassette (cfg : NormConfig) (c : CassetteDict) : CassetteDict :=
  { c with interactions := c.interactions.map (normalizeInteraction cfg) }

/-! ## Pickle model for cassette dicts

Model of `pickle.dumps(cassette_dict, protocol=2)` / `pickle.loads`: an
injective byte serialization of the cassette structure (the stdlib pickle
wire format is outside this repository).  Every field is length-prefixed with
a varint; characters are varint code points. -/

def encChars : List Char → List Nat
  | [] => []
  | c :: t => encNat c.toNat ++ encChars t

def encString (s : String) : List Nat := encNat s.toList.length ++ encChars s.toList

def encNats : List Nat → List Nat
  | [] => []
  | n :: t => encNat n ++ encNats t

def encBytes (l : List Nat) : List Nat := encNat l.length ++ encNats l

def encHeaders : List (String × String) → List Nat
  | [] => []
  | p :: t => encString p.1 ++ encString p.2 ++ encHeaders t

def encHeaderDict (h : List (String × String)) : List Nat := encNat h.length ++ encHeaders h

def encRequest (r : HSRequest) : List Nat :=
  encString r.method ++ encString r.uri ++ encHeaderDict r.headers ++ encBytes r.body

def encResponse (r : HSResponse) : List Nat :=
  encNat r.status ++ encHeaderDict r.headers ++ encBytes r.body

def encInteractions : List HSInteraction → List Nat
  | [] => []
  | i :: t => encRequest i.request ++ encResponse i.response ++ encInteractions t

def pickleDumps (c : CassetteDict) : List Nat :=
  encNat c.version ++ encNat c.interactions.length ++ encInteractions c.interactions

def decChars : Nat → List Nat → Option (List Char × List Nat)
  | 0, bs => some ([], bs)
  | n + 1, bs =>
    match decNat bs with
    | some (cv, bs₁) =>
      match decChars n bs₁ with
      | some (cs, bs₂) => some (Char.ofNat cv :: cs, bs₂)
      | none => none
    | none => none

def decString (bs : List Nat) : Option (String × List Nat) :=
  match decNat bs with
  | some (n, bs₁) =>
    match decChars n bs₁ with
    | some (cs, bs₂) => some (cs.asString, bs₂)
    | none => none
  | none => none

def decNats : Nat → List Nat → Option (List Nat × List Nat)
  | 0, bs => some ([], bs)
  | n + 1, bs =>
    match decNat bs with
    | some (v, bs₁) =>
      match decNats n bs₁ with
      | some (vs, bs₂) => some (v :: vs, bs₂)
      | none => none
    | none => none

def decBytes (bs : List Nat) : Option (List Nat × List Nat) :=
  match decNat bs with
  | some (n, bs₁) => decNats n bs₁
  | none => none

def decHeaders : Nat → List Nat → Option (List (String × String) × List Nat)
  | 0, bs => some ([], bs)
  | n + 1, bs =>
    match decString bs with
    | some (k, bs₁) =>
      match decString bs₁ with
      | some (v, bs₂) =>
        match decHeaders n bs₂ with
        | some (h, bs₃) => some ((k, v) :: h, bs₃)
        | none => none
      | none => none
    | none => none

def decHeaderDict (bs : List Nat) : Option (List (String × String) × List Nat) :=
  match decNat bs with
  | some (n, bs₁) => decHeaders n bs₁
  | none => none

def decRequest (bs : List Nat) : Option (HSRequest × List Nat) :=
  match decString bs with
  | some (m, bs₁) =>
    match decString bs₁ with
    | some (u, bs₂) =>
      match decHeaderDict bs₂ with
      | some (h, bs₃) =>
        match decBytes bs₃ with
        | some (b, bs₄) => some (⟨m, u, h, b⟩, bs₄)
        | none => none
      | none => none
    | none => none
  | none => none

def decResponse (bs : List Nat) : Option (HSResponse × List Nat) :=
  match decNat bs with
  | some (st, bs₁) =>
    match decHeaderDict bs₁ with
    | some (h, bs₂) =>
      match decBytes bs₂ with
      | some (b, bs₃) => some (⟨st, h, b⟩, bs₃)
      | none => none
    | none => none
  | none => none

def decInteractions : Nat → List Nat → Option (List HSInteraction × List Nat)
  | 0, bs => some ([], bs)
  | n + 1, bs =>
    match decRequest bs with
    | some (rq, bs₁) =>
      match decResponse bs₁ with
      | some (rs, bs₂) =>
        match decInteractions n bs₂ with
        | some (is, bs₃) => some (⟨rq, rs⟩ :: is, bs₃)
        | none => none
      | none => none
    | none => none

def decCassette (bs : List Nat) : Option (CassetteDict × List Nat) :=
  match decNat bs with
  | some (v, bs₁) =>
    match decNat bs₁ with
    | some (n, bs₂) =>
      match decInteractions n bs₂ with
      | some (is, bs₃) => some (⟨v, is⟩, bs₃)
      | none => none
    | none => none
  | none => none

def pickleLoads (bs : List Nat) : Option CassetteDict :=
  match decCassette bs with
  | some (c, _) => some c
  | none => none

/-! ## `VCRGzipSerializer.serialize` / `.deserialize` (conftest.py 78-91) -/

/-- The encoding pipeline of `serialize` after the optional normalization:
`base64.b64encode(zlib.compress(pickle.dumps(cassette_dict, protocol=2)))`
decoded to a text blob. -/
def encodeCassetteStr (c : CassetteDict) : String :=
  (b64EncodeList (rleEncode (pickleDumps c))).asString

/-- `VCRGzipSerializer.serialize` (conftest.py lines 78-86): normalize the
dict when the `NORMALIZE_CASSETTES` flag is set, then encode. -/
def serialize (normalizeFlag : Bool) (cfg : NormConfig) (c : CassetteDict) : String :=
  encodeCassetteStr (if normalizeFlag then normalize_cassette cfg c else c)

/-- `VCRGzipSerializer.deserialize` (conftest.py lines 88-91):
`pickle.loads(zlib.decompress(base64.b64decode(cassette_string)))`, with
failures surfaced as `none`. -/
def deserialize (s : String) : Option CassetteDict :=
  match b64DecodeList s.toList with
  | some bs => pickleLoads (rleDecode bs)
  | none => none

/-! ## Cleanup helpers (conftest.py lines 198-232)

The stateful jobq / settings / jobs HTTP calls are modelled as an operation
trace; the backend's answers to the six `jobq.summary` calls are an oracle
list (entry `i` = job keys in the summary of the `i`-th call, missing entries
meaning an empty summary). -/

inductive JobOp where
  | finish (k : String)
  | jobqDelete (k : String)
  | apidelete (k : String)
  | querySummary (q : String)
  | delSetting (k : String)
  | saveSettings
  deriving DecidableEq

/-- Project-id component of a composite job key `<project>/<spider>/<job>`. -/
def jobProjectComponent (k : String) : String := pyPartitionBefore k '/'

/-- `_remove_job` (conftest.py lines 211-216): finish and delete in the jobq,
then `assert jobkey.startswith(TEST_PROJECT_ID)` and
`apidelete(jobkey.partition("/")[2])`.  Returns the executed operations and
`true` when the run completed (`false` = the assertion aborted before the
apidelete). -/
def removeJobTrace (testProjectId jobkey : String) : List JobOp × Bool :=
  if pyStartswith jobkey testProjectId then
    ([JobOp.finish jobkey, JobOp.jobqDelete jobkey,
      JobOp.apidelete (pyPartitionAfter jobkey '/')], true)
  else
    ([JobOp.finish jobkey, JobOp.jobqDelete jobkey], false)

/-- `for summary in info["summary"]: _remove_job(...)`, stopping at the first
assertion failure. -/
def runRemoveJobs (pid : String) : List String → List JobOp × Bool
  | [] => ([], true)
  | k :: rest =>
    match removeJobTrace pid k with
    | (ops, true) =>
      match runRemoveJobs pid rest with
      | (ops', done) => (ops ++ ops', done)
    | (ops, false) => (ops, false)

/-- `("pending", "running", "finished") * 2` (conftest.py line 205). -/
def queueNamesTwice : List String :=
  ["pending", "running", "finished"] ++ ["pending", "running", "finished"]

/-- The jobq cleanup loop of `remove_all_jobs` (conftest.py lines 204-208):
one `jobq.summary(queuename)` call per queue name (call number `i`), then a
`_remove_job` for every returned summary key. -/
def runQueues (pid : String) (oracle : List (List String)) :
    Nat → List String → List JobOp × Bool
  | _, [] => ([], true)
  | i, q :: qs =>
    match runRemoveJobs pid (oracle.getD i []) with
    | (ops, true) =>
      match runQueues pid oracle (i + 1) qs with
      | (ops', done) => (JobOp.querySummary q :: ops ++ ops', done)
    | (ops, false) => (JobOp.querySummary q :: ops, false)

/-- The settings wipe of `remove_all_jobs` (conftest.py lines 199-201):
`del` every key except `botgroups`. -/
def settingsDeleteOps (keys : List String) : List JobOp :=
  keys.filterMap fun k => if k ≠ "botgroups" then some (JobOp.delSetting k) else none

/-- `remove_all_jobs` (conftest.py lines 198-208): wipe the settings (keeping
`botgroups`), save, then run the jobq cleanup over the six queue passes. -/
def remove_all_jobs (pid : String) (settingsKeys : List String)
    (oracle : List (List String)) : List JobOp × Bool :=
  match runQueues pid oracle 0 queueNamesTwice with
  | (qops, done) => (settingsDeleteOps settingsKeys ++ [JobOp.saveSettings] ++ qops, done)

/-- A collection entry: the spec makes `_key` mandatory, so an item is
modelled by that key. -/
structure CollItem where
  key : String
  deriving DecidableEq

/-- The `for item in collection.iter_values(): collection.delete(item["_key"])`
loop, with `deleteResult` the backend's answer to each delete. -/
def deleteLoop (deleteResult : String → Except Nat Unit) : List CollItem → Except Nat Unit
  | [] => Except.ok ()
  | item :: rest =>
    match deleteResult item.key with
    | Except.ok _ => deleteLoop deleteResult rest
    | Except.error s => Except.error s

/-- `clean_collection` (conftest.py lines 225-232): run the delete loop over
`iter_values()`; an `HTTPError` with status 404 is swallowed, any other
status is re-raised.  `iterValues` is the backend's answer to
`collection.iter_values()` (an error status models the generator raising). -/
def clean_collection (iterValues : Except Nat (List CollItem))
    (deleteResult : String → Except Nat Unit) : Except Nat Unit :=
  match (match iterValues with
         | Except.ok items => deleteLoop deleteResult items
         | Except.error s => Except.error s) with
  | Except.ok _ => Except.ok ()
  | Except.error s => if s ≠ 404 then Except.error s else Except.ok ()

/-! ## Concrete instances used by counterexamples and witnesses -/

/-- The default environment: `HS_ENDPOINT` / `HS_PROJECT_ID` unset. -/
def defaultNormConfig : NormConfig := ⟨DEFAULT_ENDPOINT, DEFAULT_PROJECT_ID, DEFAULT_ENDPOINT⟩

/-- Environment with `HS_PROJECT_ID=222` (a prefix of the canonical id). -/
def c3Config : NormConfig := ⟨DEFAULT_ENDPOINT, "222", DEFAULT_ENDPOINT⟩

def c3Cassette : CassetteDict :=
  { version := 1, interactions := [⟨⟨"GET", "222", [], []⟩, ⟨200, [], []⟩⟩] }

/-- Environment with `HS_PROJECT_ID=22` (a substring of the canonical id). -/
def c4Config : NormConfig := ⟨DEFAULT_ENDPOINT, "22", DEFAULT_ENDPOINT⟩

def c4Cassette : CassetteDict :=
  { version := 1,
    interactions :=
      [⟨⟨"GET", "p/22", [("Authorization", "Basic original")], []⟩, ⟨200, [], []⟩⟩] }

def c4WitnessCassette : CassetteDict :=
  { version := 1,
    interactions :=
      [⟨⟨"GET", "u", [("Authorization", "Basic sekret"), ("Accept", "json")], []⟩,
        ⟨200, [], []⟩⟩] }

end Spec2Proof

namespace Spec2Proof

/-! ## Dictionary lemmas -/

theorem dictLookup_nil {α : Type} (k : String) :
    dictLookup ([] : List (String × α)) k = none := rfl

theorem dictLookup_cons {α : Type} (p : String × α) (d : List (String × α)) (k : String) :
    dictLookup (p :: d) k = if p.1 == k then some p.2 else dictLookup d k := by
  by_cases h : p.1 == k <;> simp [dictLookup, List.find?_cons, h]

theorem dictLookup_dictPopped_self {α : Type} (d : List (String × α)) (k : String) :
    dictLookup (dictPopped d k) k = none := by
  induction d with
  | nil => rfl
  | cons p d ih =>
    simp only [dictPopped, List.filter_cons] at ih ⊢
    by_cases h : p.1 = k
    · have h' : (p.1 != k) = false := by simp [bne, h]
      simp [h', ih]
    · have h' : (p.1 != k) = true := by simp [bne, h]
      simp [h', dictLookup_cons, h, ih]

theorem dictLookup_dictPopped_ne {α : Type} (d : List (String × α)) (k k' : String)
    (h : k' ≠ k) : dictLookup (dictPopped d k) k' = dictLookup d k' := by
  induction d with
  | nil => rfl
  | cons p d ih =>
    simp only [dictPopped, List.filter_cons] at ih ⊢
    by_cases hp : p.1 = k
    · have h1 : (p.1 != k) = false := by simp [bne, hp]
      have h2 : (p.1 == k') = false := by
        simp only [beq_eq_false_iff_ne, ne_eq]
        exact fun hk => h (hk ▸ hp)
      simp [h1, dictLookup_cons, h2, ih]
    · have h1 : (p.1 != k) = true := by simp [bne, hp]
      simp [h1, dictLookup_cons, ih]

theorem dictLookup_append {α : Type} (d₁ d₂ : List (String × α)) (k : String) :
    dictLookup (d₁ ++ d₂) k =
      match dictLookup d₁ k with
      | some v => some v
      | none => dictLookup d₂ k := by
  induction d₁ with
  | nil => simp [dictLookup_nil]
  | cons p d ih =>
    by_cases h : p.1 == k <;> simp [dictLookup_cons, h, ih]

theorem dictLookup_dictSet_self {α : Type} (d : List (String × α)) (k : String) (v : α) :
    dictLookup (dictSet d k v) k = some v := by
  simp [dictSet, dictLookup_append, dictLookup_dictPopped_self, dictLookup_cons]

theorem dictLookup_dictSet_ne {α : Type} (d : List (String × α)) (k k' : String) (v : α)
    (h : k' ≠ k) : dictLookup (dictSet d k v) k' = dictLookup (dictPopped d k) k' := by
  have h' : (k == k') = false := by
    simp only [beq_eq_false_iff_ne, ne_eq]
    exact fun hk => h hk.symm
  simp only [dictSet, dictLookup_append, dictLookup_cons, h', if_false, dictLookup_nil]
  cases dictLookup (dictPopped d k) k' <;> simp

theorem dictPopped_idem {α : Type} (d : List (String × α)) (k : String) :
    dictPopped (dictPopped d k) k = dictPopped d k := by
  simp [dictPopped, List.filter_filter]

/-! ## C1 / C10: offset-to-cursor translation -/

/-- C1 counterexample: with `offset=0` (a falsy value) the produced params
contain no `start` entry at all, contradicting the claim that every call with
a parameter `offset=N` yields `start = <key>/N`. -/
theorem C1_offset_zero_counterexample :
    ¬ (dictLookup (modifyIterParams "1/2/3" [("offset", PyParam.int 0)]) "start"
        = some (PyParam.str "1/2/3/0")) := by
  decide

/-- C1 (amended): for every call whose `offset` parameter is truthy (e.g. a
nonzero integer), the params produced by `Items._modify_iter_params` contain a
`start` entry equal to `<key>/<offset>` and no `offset` key; a falsy offset
(such as `0`) is dropped without producing a `start` entry. -/
theorem C1_offset_becomes_start (key : String) (params : List (String × PyParam))
    (v : PyParam) (hv : dictLookup params "offset" = some v)
    (ht : pyTruthy v = true) :
    dictLookup (modifyIterParams key params) "start"
        = some (PyParam.str (key ++ "/" ++ pyStr v))
      ∧ dictLookup (modifyIterParams key params) "offset" = none := by
  have hmod : modifyIterParams key params
      = dictSet (dictPopped params "offset") "start"
          (PyParam.str (key ++ "/" ++ pyStr v)) := by
    simp only [modifyIterParams, proxyModifyIterParams, hv, Option.getD_some, ht, if_true]
  rw [hmod]
  refine ⟨dictLookup_dictSet_self _ _ _, ?_⟩
  rw [dictLookup_dictSet_ne _ _ _ _ (by decide),
    dictLookup_dictPopped_ne _ _ _ (by decide)]
  exact dictLookup_dictPopped_self _ _

/-- Witness for `C1_offset_becomes_start` at `key = "1/2/3"`, `offset = 5`. -/
theorem C1_offset_becomes_start_witness :
    dictLookup (modifyIterParams "1/2/3" [("offset", PyParam.int 5)]) "start"
        = some (PyParam.str ("1/2/3" ++ "/" ++ pyStr (PyParam.int 5)))
      ∧ dictLookup (modifyIterParams "1/2/3" [("offset", PyParam.int 5)]) "offset" = none :=
  C1_offset_becomes_start "1/2/3" [("offset", PyParam.int 5)] (PyParam.int 5)
    (by decide) (by decide)

/-- C10: when the `offset` parameter is falsy (`0`, `None`, the empty string,
or absent), `Items._modify_iter_params` returns the params with the `offset`
key removed and nothing else changed: no `offset` key, no `start` derived from
it, and the result coincides with the result for the same params without any
`offset` entry. -/
theorem C10_falsy_offset_dropped (key : String) (params : List (String × PyParam))
    (h : pyTruthy ((dictLookup params "offset").getD PyParam.none) = false) :
    modifyIterParams key params = dictPopped params "offset"
      ∧ dictLookup (modifyIterParams key params) "offset" = none
      ∧ modifyIterParams key params = modifyIterParams key (dictPopped params "offset") := by
  have h1 : modifyIterParams key params = dictPopped params "offset" := by
    simp only [modifyIterParams, proxyModifyIterParams, h, Bool.false_eq_true, if_false]
  refine ⟨h1, ?_, ?_⟩
  · rw [h1]; exact dictLookup_dictPopped_self _ _
  · rw [h1]
    simp only [modifyIterParams, proxyModifyIterParams, dictLookup_dictPopped_self,
      Option.getD_none, pyTruthy, Bool.false_eq_true, if_false, dictPopped_idem]

/-- Witness for `C10_falsy_offset_dropped` at `offset = 0`. -/
theorem C10_falsy_offset_dropped_witness :
    modifyIterParams "1/2/3" [("offset", PyParam.int 0), ("count", PyParam.int 10)]
        = dictPopped [("offset", PyParam.int 0), ("count", PyParam.int 10)] "offset"
      ∧ dictLookup
          (modifyIterParams "1/2/3" [("offset", PyParam.int 0), ("count", PyParam.int 10)])
          "offset" = none
      ∧ modifyIterParams "1/2/3" [("offset", PyParam.int 0), ("count", PyParam.int 10)]
        = modifyIterParams "1/2/3"
            (dictPopped [("offset", PyParam.int 0), ("count", PyParam.int 10)] "offset") :=
  C10_falsy_offset_dropped "1/2/3" [("offset", PyParam.int 0), ("count", PyParam.int 10)]
    (by decide)

/-! ## String lemmas -/

theorem isPrefixOf_append_drop :
    ∀ (x s : List Char), x.isPrefixOf s = true → x ++ s.drop x.length = s := by
  intro x
  induction x with
  | nil => intro s _; simp
  | cons a as ih =>
    intro s h
    cases s with
    | nil => simp [List.isPrefixOf] at h
    | cons b t =>
      have h' : (a == b && as.isPrefixOf t) = true := h
      rw [Bool.and_eq_true] at h'
      obtain ⟨hab, hpre⟩ := h'
      have hab' : a = b := by simpa using hab
      simp only [List.length_cons, List.drop_succ_cons, List.cons_append, hab']
      rw [ih t hpre]

theorem replaceFuel_self (x : List Char) (hx : x ≠ []) :
    ∀ (fuel : Nat) (s : List Char), s.length ≤ fuel → replaceFuel x x fuel s = s := by
  intro fuel
  induction fuel with
  | zero =>
    intro s hs
    cases s with
    | nil => rfl
    | cons c t => simp at hs
  | succ fuel ih =>
    intro s hs
    cases s with
    | nil => rfl
    | cons c t =>
      by_cases hp : x.isPrefixOf (c :: t) = true
      · have hdrop := isPrefixOf_append_drop x (c :: t) hp
        have hxlen : 1 ≤ x.length := by
          cases x with
          | nil => exact absurd rfl hx
          | cons a y => simp
        have hlen : ((c :: t).drop x.length).length ≤ fuel := by
          have hcong := congrArg List.length hdrop
          simp only [List.length_append, List.length_cons] at hcong
          simp only [List.length_cons] at hs
          omega
        simp only [replaceFuel, hp, if_true]
        rw [ih _ hlen, hdrop]
      · have hlen : t.length ≤ fuel := by
          simp only [List.length_cons] at hs
          omega
        simp only [replaceFuel, hp, if_false]
        rw [ih t hlen]
        simp

theorem toList_eq_nil_of_eq_empty (x : String) (h : x.toList = []) : x = "" := by
  apply String.ext
  simpa [String.toList] using h

/-- Python `s.replace(x, x)` is the identity for nonempty `x`. -/
theorem pyReplace_self (s x : String) (hx : x ≠ "") : pyReplace s x x = s := by
  have hx' : x.toList ≠ [] := fun h => hx (toList_eq_nil_of_eq_empty x h)
  unfold pyReplace pyReplaceL
  rw [if_neg hx', replaceFuel_self _ hx' _ _ le_rfl]
  rfl

/-! ## More dictionary lemmas (for the Authorization-header update) -/

theorem dictPopped_append {α : Type} (d₁ d₂ : List (String × α)) (k : String) :
    dictPopped (d₁ ++ d₂) k = dictPopped d₁ k ++ dictPopped d₂ k := by
  simp [dictPopped, List.filter_append]

theorem dictPopped_single_self {α : Type} (k : String) (v : α) :
    dictPopped [(k, v)] k = [] := by
  simp [dictPopped]

theorem dictPopped_dictSet_self {α : Type} (d : List (String × α)) (k : String) (v : α) :
    dictPopped (dictSet d k v) k = dictPopped d k := by
  rw [dictSet, dictPopped_append, dictPopped_idem, dictPopped_single_self,
    List.append_nil]

theorem dictHasKey_dictSet_self {α : Type} (d : List (String × α)) (k : String) (v : α) :
    dictHasKey (dictSet d k v) k = true := by
  simp [dictHasKey, dictLookup_dictSet_self]

theorem dictLookup_none_key_ne {α : Type} (d : List (String × α)) (k : String)
    (h : dictLookup d k = none) : ∀ p ∈ d, p.1 ≠ k := by
  intro p hp
  unfold dictLookup at h
  cases hfind : d.find? (fun q => q.1 == k) with
  | some q => rw [hfind] at h; exact absurd h (by simp)
  | none =>
    have := List.find?_eq_none.mp hfind p hp
    simpa using this

/-! ## C3: idempotence of `normalize_cassette` -/

/-- C3 counterexample: with `HS_PROJECT_ID=222` (a proper prefix of the
canonical `2222222`), normalizing twice differs from normalizing once — the
substitution re-matches inside the replacement it produced, so
`normalize_cassette` is not idempotent for all environment constants. -/
theorem C3_normalize_not_idempotent_counterexample :
    normalize_cassette c3Config (normalize_cassette c3Config c3Cassette)
      ≠ normalize_cassette c3Config c3Cassette := by
  decide

theorem normalizeInteraction_idem (cfg : NormConfig) (i : HSInteraction)
    (hE : cfg.testEndpoint = DEFAULT_ENDPOINT)
    (hP : cfg.testProjectId = DEFAULT_PROJECT_ID) :
    normalizeInteraction cfg (normalizeInteraction cfg i) = normalizeInteraction cfg i := by
  have hOr : pyOrStr cfg.testEndpoint cfg.clientDefaultEndpoint = DEFAULT_ENDPOINT := by
    rw [hE]
    unfold pyOrStr
    rw [if_neg (by decide)]
  have hrepl : ∀ u : String,
      pyReplace (pyReplace u DEFAULT_ENDPOINT DEFAULT_ENDPOINT)
        DEFAULT_PROJECT_ID DEFAULT_PROJECT_ID = u := by
    intro u
    rw [pyReplace_self _ _ (by decide), pyReplace_self _ _ (by decide)]
  simp only [normalizeInteraction, hOr, hP, hrepl]
  by_cases hk : dictHasKey i.request.headers "Authorization" = true
  · simp only [hk, if_true, dictHasKey_dictSet_self, dictPopped_dictSet_self,
      dictPopped_idem]
  · have hk' : dictHasKey i.request.headers "Authorization" = false :=
      Bool.eq_false_iff.mpr hk
    simp only [hk', Bool.false_eq_true, if_false]

/-- C3 (amended): `normalize_cassette` is idempotent whenever the
environment-derived substitution constants equal the canonical placeholders
(the default environment); for other values the substitution can re-match
inside its own output, breaking idempotence (see the counterexample). -/
theorem C3_normalize_idempotent_default (cfg : NormConfig) (c : CassetteDict)
    (hE : cfg.testEndpoint = DEFAULT_ENDPOINT)
    (hP : cfg.testProjectId = DEFAULT_PROJECT_ID) :
    normalize_cassette cfg (normalize_cassette cfg c) = normalize_cassette cfg c := by
  unfold normalize_cassette
  simp only [List.map_map]
  congr 1
  apply List.map_congr_left
  intro i _
  exact normalizeInteraction_idem cfg i hE hP

/-- Witness for `C3_normalize_idempotent_default` in the default
environment. -/
theorem C3_normalize_idempotent_default_witness :
    normalize_cassette defaultNormConfig (normalize_cassette defaultNormConfig c3Cassette)
      = normalize_cassette defaultNormConfig c3Cassette :=
  C3_normalize_idempotent_default defaultNormConfig c3Cassette rfl rfl

/-! ## C9: frame property of `normalize_cassette` -/

theorem dictLookup_eq_none_of_hasKey_false {α : Type} (d : List (String × α)) (k : String)
    (h : dictHasKey d k = false) : dictLookup d k = none := by
  unfold dictHasKey at h
  cases hl : dictLookup d k with
  | none => rfl
  | some v => rw [hl] at h; simp at h

theorem normalizeInteraction_frame (cfg : NormConfig) (x : HSInteraction) :
    (normalizeInteraction cfg x).response = x.response
      ∧ (normalizeInteraction cfg x).request.method = x.request.method
      ∧ (normalizeInteraction cfg x).request.body = x.request.body
      ∧ dictPopped (normalizeInteraction cfg x).request.headers "Authorization"
          = dictPopped x.request.headers "Authorization" := by
  refine ⟨rfl, rfl, rfl, ?_⟩
  simp only [normalizeInteraction]
  by_cases hk : dictHasKey x.request.headers "Authorization" = true
  · simp only [hk, if_true]
    rw [dictPopped_dictSet_self, dictPopped_idem]
  · have hk' : dictHasKey x.request.headers "Authorization" = false :=
      Bool.eq_false_iff.mpr hk
    simp only [hk', Bool.false_eq_true, if_false]

/-- C9: `normalize_cassette` changes at most the request uri and the request
`Authorization` header: the cassette version is unchanged, the interaction
list keeps its length and order, and positionally every interaction keeps its
response, request method, request body, and all request headers other than
`Authorization` (in their original order — `dictPopped · "Authorization"`
is the header dict without its `Authorization` entry). -/
theorem C9_normalize_frame (cfg : NormConfig) (c : CassetteDict) :
    (normalize_cassette cfg c).version = c.version
      ∧ (normalize_cassette cfg c).interactions.length = c.interactions.length
      ∧ List.Forall₂ (fun i i' =>
          i'.response = i.response
            ∧ i'.request.method = i.request.method
            ∧ i'.request.body = i.request.body
            ∧ dictPopped i'.request.headers "Authorization"
                = dictPopped i.request.headers "Authorization")
        c.interactions (normalize_cassette cfg c).interactions := by
  refine ⟨rfl, by simp [normalize_cassette], ?_⟩
  show List.Forall₂ _ c.interactions (c.interactions.map (normalizeInteraction cfg))
  rw [List.forall₂_map_right_iff, List.forall₂_same]
  intro x _
  obtain ⟨h1, h2, h3, h4⟩ := normalizeInteraction_frame cfg x
  exact ⟨h1, h2, h3, h4⟩

/-! ## C4: what survives normalization -/

/-- C4 counterexample: with `HS_PROJECT_ID=22` the normalized request uri
still contains the original test project id as a substring — replacing `22`
by `2222222` in `p/22` yields `p/2222222`, which contains `22` — refuting the
claimed no-substring invariant at this concrete cassette. -/
theorem C4_normalized_uri_contains_project_id_counterexample :
    (normalize_cassette c4Config c4Cassette).interactions.map
        (fun i => pyInStr c4Config.testProjectId i.request.uri)
      = [true] := by
  decide

/-- Every header pair of a normalized interaction is either an original
non-`Authorization` pair or the fixed placeholder pair. -/
theorem normalizeInteraction_headers_mem (cfg : NormConfig) (x : HSInteraction)
    (p : String × String) (hp : p ∈ (normalizeInteraction cfg x).request.headers) :
    (p ∈ x.request.headers ∧ p.1 ≠ "Authorization")
      ∨ p = ("Authorization", AUTH_PLACEHOLDER) := by
  revert hp
  simp only [normalizeInteraction]
  by_cases hk : dictHasKey x.request.headers "Authorization" = true
  · simp only [hk, if_true, dictSet, dictPopped]
    intro hp
    rcases List.mem_append.mp hp with hmem | hmem
    · left
      have h1 := List.mem_filter.mp hmem
      have h2 := List.mem_filter.mp h1.1
      exact ⟨h2.1, by simpa using h2.2⟩
    · right
      simpa using hmem
  · have hk' : dictHasKey x.request.headers "Authorization" = false :=
      Bool.eq_false_iff.mpr hk
    simp only [hk', Bool.false_eq_true, if_false]
    intro hp
    left
    exact ⟨hp, dictLookup_none_key_ne x.request.headers "Authorization"
      (dictLookup_eq_none_of_hasKey_false _ _ hk') p hp⟩

/-- C4 (amended): `normalize_cassette` replaces every present `Authorization`
request header by the fixed placeholder value (and adds none where absent),
so after normalization no request header value contains the original auth
value as a substring, provided that value is not itself a substring of the
placeholder and did not already occur as a substring of a non-`Authorization`
header value — the code rewrites only the `Authorization` header and never
scans the others.  No analogous guarantee holds for the request uri: the
project-id substitution can reintroduce the original id as a substring (see
the counterexample). -/
theorem C4_auth_header_replaced_no_substring (cfg : NormConfig) (c : CassetteDict)
    (origAuth : String) (hph : pyInStr origAuth AUTH_PLACEHOLDER = false)
    (hother : ∀ i ∈ c.interactions, ∀ p ∈ i.request.headers,
        p.1 ≠ "Authorization" → pyInStr origAuth p.2 = false) :
    List.Forall₂ (fun i i' =>
        dictLookup i'.request.headers "Authorization"
            = (if dictHasKey i.request.headers "Authorization" = true
               then some AUTH_PLACEHOLDER else none)
          ∧ ∀ p ∈ i'.request.headers, pyInStr origAuth p.2 = false)
      c.interactions (normalize_cassette cfg c).interactions := by
  show List.Forall₂ _ c.interactions (c.interactions.map (normalizeInteraction cfg))
  rw [List.forall₂_map_right_iff, List.forall₂_same]
  intro x hx
  constructor
  · by_cases hk : dictHasKey x.request.headers "Authorization" = true
    · rw [if_pos hk]
      have hout : (normalizeInteraction cfg x).request.headers
          = dictSet (dictPopped x.request.headers "Authorization") "Authorization"
              AUTH_PLACEHOLDER := by
        simp only [normalizeInteraction, hk, if_true]
      rw [hout, dictLookup_dictSet_self]
    · have hk2 : dictHasKey x.request.headers "Authorization" = false :=
        Bool.eq_false_iff.mpr hk
      rw [if_neg hk]
      have hout : (normalizeInteraction cfg x).request.headers = x.request.headers := by
        simp only [normalizeInteraction, hk2, Bool.false_eq_true, if_false]
      rw [hout]
      exact dictLookup_eq_none_of_hasKey_false _ _ hk2
  · intro p hp
    rcases normalizeInteraction_headers_mem cfg x p hp with ⟨hmem, hkey⟩ | hphp
    · exact hother x hx p hmem hkey
    · rw [hphp]
      exact hph

/-- Witness for `C4_auth_header_replaced_no_substring` on a one-interaction
cassette holding the auth value `Basic sekret`. -/
theorem C4_auth_header_replaced_no_substring_witness :
    List.Forall₂ (fun i i' =>
        dictLookup i'.request.headers "Authorization"
            = (if dictHasKey i.request.headers "Authorization" = true
               then some AUTH_PLACEHOLDER else none)
          ∧ ∀ p ∈ i'.request.headers, pyInStr "Basic sekret" p.2 = false)
      c4WitnessCassette.interactions
      (normalize_cassette defaultNormConfig c4WitnessCassette).interactions :=
  C4_auth_header_replaced_no_substring defaultNormConfig c4WitnessCassette "Basic sekret"
    (by decide) (by decide)

/-! ## Varint lemmas -/

theorem decNat_natToB7 :
    ∀ (fuel n : Nat) (rest : List Nat), n ≤ fuel →
      decNat (natToB7 fuel n ++ rest) = some (n, rest) := by
  intro fuel
  induction fuel with
  | zero =>
    intro n rest hn
    have h0 : n = 0 := Nat.le_zero.mp hn
    subst h0
    simp [natToB7, decNat]
  | succ fuel ih =>
    intro n rest hn
    by_cases h : n < 128
    · simp [natToB7, h, decNat]
    · simp only [natToB7, h, if_false]
      have hb : ¬ (n % 128 + 128 < 128) := by omega
      simp only [List.cons_append, decNat, hb, if_false, List.append_eq]
      have hrec : n / 128 ≤ fuel := by
        have h1 : n / 128 < n := Nat.div_lt_self (by omega) (by omega)
        omega
      rw [ih (n / 128) rest hrec]
      show some (n % 128 + 128 - 128 + 128 * (n / 128), rest) = some (n, rest)
      have harith : n % 128 + 128 - 128 + 128 * (n / 128) = n := by omega
      rw [harith]

theorem decNat_encNat (n : Nat) (rest : List Nat) :
    decNat (encNat n ++ rest) = some (n, rest) :=
  decNat_natToB7 n n rest le_rfl

theorem allBytes_append (l₁ l₂ : List Nat)(h₁ : allBytes l₁) (h₂ : allBytes l₂) :
    allBytes (l₁ ++ l₂) := by
  intro x hx
  rcases List.mem_append.mp hx with h | h
  · exact h₁ x h
  · exact h₂ x h

theorem allBytes_natToB7 : ∀ (fuel n : Nat), allBytes (natToB7 fuel n) := by
  intro fuel
  induction fuel with
  | zero =>
    intro n x hx
    simp [natToB7] at hx
    omega
  | succ fuel ih =>
    intro n x hx
    by_cases h : n < 128
    · simp [natToB7, h] at hx
      omega
    · simp only [natToB7, h, if_false] at hx
      rcases List.mem_cons.mp hx with h1 | h1
      · omega
      · exact ih (n / 128) x h1

theorem allBytes_encNat (n : Nat) : allBytes (encNat n) := allBytes_natToB7 n n

/-! ## Pickle-model round trip -/

theorem decChars_encChars :
    ∀ (l : List Char) (rest : List Nat),
      decChars l.length (encChars l ++ rest) = some (l, rest) := by
  intro l
  induction l with
  | nil => intro rest; rfl
  | cons c t ih =>
    intro rest
    have h1 : decNat (encNat c.toNat ++ (encChars t ++ rest))
        = some (c.toNat, encChars t ++ rest) := decNat_encNat _ _
    simp only [List.length_cons, encChars, List.append_assoc, decChars, h1, ih rest,
      Char.ofNat_toNat]

theorem decString_encString (s : String) (rest : List Nat) :
    decString (encString s ++ rest) = some (s, rest) := by
  have h1 : decNat (encNat s.toList.length ++ (encChars s.toList ++ rest))
      = some (s.toList.length, encChars s.toList ++ rest) := decNat_encNat _ _
  simp only [encString, List.append_assoc, decString, h1, decChars_encChars]
  rfl

theorem decNats_encNats :
    ∀ (l : List Nat) (rest : List Nat),
      decNats l.length (encNats l ++ rest) = some (l, rest) := by
  intro l
  induction l with
  | nil => intro rest; rfl
  | cons n t ih =>
    intro rest
    have h1 : decNat (encNat n ++ (encNats t ++ rest)) = some (n, encNats t ++ rest) :=
      decNat_encNat _ _
    simp only [List.length_cons, encNats, List.append_assoc, decNats, h1, ih rest]

theorem decBytes_encBytes (l : List Nat) (rest : List Nat) :
    decBytes (encBytes l ++ rest) = some (l, rest) := by
  have h1 : decNat (encNat l.length ++ (encNats l ++ rest))
      = some (l.length, encNats l ++ rest) := decNat_encNat _ _
  simp only [encBytes, List.append_assoc, decBytes, h1, decNats_encNats]

theorem decHeaders_encHeaders :
    ∀ (h : List (String × String)) (rest : List Nat),
      decHeaders h.length (encHeaders h ++ rest) = some (h, rest) := by
  intro h
  induction h with
  | nil => intro rest; rfl
  | cons p t ih =>
    intro rest
    have h1 : decString (encString p.1 ++ (encString p.2 ++ (encHeaders t ++ rest)))
        = some (p.1, encString p.2 ++ (encHeaders t ++ rest)) := decString_encString _ _
    have h2 : decString (encString p.2 ++ (encHeaders t ++ rest))
        = some (p.2, encHeaders t ++ rest) := decString_encString _ _
    simp only [List.length_cons, encHeaders, List.append_assoc, decHeaders, h1, h2, ih rest]

theorem decHeaderDict_encHeaderDict (h : List (String × String)) (rest : List Nat) :
    decHeaderDict (encHeaderDict h ++ rest) = some (h, rest) := by
  have h1 : decNat (encNat h.length ++ (encHeaders h ++ rest))
      = some (h.length, encHeaders h ++ rest) := decNat_encNat _ _
  simp only [encHeaderDict, List.append_assoc, decHeaderDict, h1, decHeaders_encHeaders]

theorem decRequest_encRequest (r : HSRequest) (rest : List Nat) :
    decRequest (encRequest r ++ rest) = some (r, rest) := by
  have h1 : decString (encString r.method
        ++ (encString r.uri ++ (encHeaderDict r.headers ++ (encBytes r.body ++ rest))))
      = some (r.method, encString r.uri ++ (encHeaderDict r.headers
        ++ (encBytes r.body ++ rest))) := decString_encString _ _
  have h2 : decString (encString r.uri
        ++ (encHeaderDict r.headers ++ (encBytes r.body ++ rest)))
      = some (r.uri, encHeaderDict r.headers ++ (encBytes r.body ++ rest)) :=
    decString_encString _ _
  have h3 : decHeaderDict (encHeaderDict r.headers ++ (encBytes r.body ++ rest))
      = some (r.headers, encBytes r.body ++ rest) := decHeaderDict_encHeaderDict _ _
  have h4 : decBytes (encBytes r.body ++ rest) = some (r.body, rest) :=
    decBytes_encBytes _ _
  simp only [encRequest, List.append_assoc, decRequest, h1, h2, h3, h4]

theorem decResponse_encResponse (r : HSResponse) (rest : List Nat) :
    decResponse (encResponse r ++ rest) = some (r, rest) := by
  have h1 : decNat (encNat r.status ++ (encHeaderDict r.headers ++ (encBytes r.body ++ rest)))
      = some (r.status, encHeaderDict r.headers ++ (encBytes r.body ++ rest)) :=
    decNat_encNat _ _
  have h2 : decHeaderDict (encHeaderDict r.headers ++ (encBytes r.body ++ rest))
      = some (r.headers, encBytes r.body ++ rest) := decHeaderDict_encHeaderDict _ _
  have h3 : decBytes (encBytes r.body ++ rest) = some (r.body, rest) :=
    decBytes_encBytes _ _
  simp only [encResponse, List.append_assoc, decResponse, h1, h2, h3]

theorem decInteractions_encInteractions :
    ∀ (l : List HSInteraction) (rest : List Nat),
      decInteractions l.length (encInteractions l ++ rest) = some (l, rest) := by
  intro l
  induction l with
  | nil => intro rest; rfl
  | cons i t ih =>
    intro rest
    have h1 : decRequest (encRequest i.request
          ++ (encResponse i.response ++ (encInteractions t ++ rest)))
        = some (i.request, encResponse i.response ++ (encInteractions t ++ rest)) :=
      decRequest_encRequest _ _
    have h2 : decResponse (encResponse i.response ++ (encInteractions t ++ rest))
        = some (i.response, encInteractions t ++ rest) := decResponse_encResponse _ _
    simp only [List.length_cons, encInteractions, List.append_assoc, decInteractions,
      h1, h2, ih rest]

theorem decCassette_pickleDumps (c : CassetteDict) (rest : List Nat) :
    decCassette (pickleDumps c ++ rest) = some (c, rest) := by
  have h1 : decNat (encNat c.version
        ++ (encNat c.interactions.length ++ (encInteractions c.interactions ++ rest)))
      = some (c.version, encNat c.interactions.length
        ++ (encInteractions c.interactions ++ rest)) := decNat_encNat _ _
  have h2 : decNat (encNat c.interactions.length ++ (encInteractions c.interactions ++ rest))
      = some (c.interactions.length, encInteractions c.interactions ++ rest) :=
    decNat_encNat _ _
  simp only [pickleDumps, List.append_assoc, decCassette, h1, h2,
    decInteractions_encInteractions]

theorem pickleLoads_pickleDumps (c : CassetteDict) :
    pickleLoads (pickleDumps c) = some c := by
  have h1 : decCassette (pickleDumps c ++ []) = some (c, []) := decCassette_pickleDumps c []
  rw [List.append_nil] at h1
  simp only [pickleLoads, h1]

/-! ## The pickle model emits genuine bytes -/

theorem allBytes_encChars : ∀ l : List Char, allBytes (encChars l) := by
  intro l
  induction l with
  | nil => intro x hx; simp [encChars] at hx
  | cons c t ih => exact allBytes_append _ _ (allBytes_encNat _) ih

theorem allBytes_encString (s : String) : allBytes (encString s) :=
  allBytes_append _ _ (allBytes_encNat _) (allBytes_encChars _)

theorem allBytes_encNats : ∀ l : List Nat, allBytes (encNats l) := by
  intro l
  induction l with
  | nil => intro x hx; simp [encNats] at hx
  | cons n t ih => exact allBytes_append _ _ (allBytes_encNat _) ih

theorem allBytes_encBytes (l : List Nat) : allBytes (encBytes l) :=
  allBytes_append _ _ (allBytes_encNat _) (allBytes_encNats _)

theorem allBytes_encHeaders : ∀ h : List (String × String), allBytes (encHeaders h) := by
  intro h
  induction h with
  | nil => intro x hx; simp [encHeaders] at hx
  | cons p t ih =>
    exact allBytes_append _ _
      (allBytes_append _ _ (allBytes_encString _) (allBytes_encString _)) ih

theorem allBytes_encHeaderDict (h : List (String × String)) : allBytes (encHeaderDict h) :=
  allBytes_append _ _ (allBytes_encNat _) (allBytes_encHeaders _)

theorem allBytes_encRequest (r : HSRequest) : allBytes (encRequest r) :=
  allBytes_append _ _
    (allBytes_append _ _
      (allBytes_append _ _ (allBytes_encString _) (allBytes_encString _))
      (allBytes_encHeaderDict _))
    (allBytes_encBytes _)

theorem allBytes_encResponse (r : HSResponse) : allBytes (encResponse r) :=
  allBytes_append _ _
    (allBytes_append _ _ (allBytes_encNat _) (allBytes_encHeaderDict _))
    (allBytes_encBytes _)

theorem allBytes_encInteractions : ∀ l : List HSInteraction, allBytes (encInteractions l) := by
  intro l
  induction l with
  | nil => intro x hx; simp [encInteractions] at hx
  | cons i t ih =>
    exact allBytes_append _ _
      (allBytes_append _ _ (allBytes_encRequest _) (allBytes_encResponse _)) ih

theorem allBytes_pickleDumps (c : CassetteDict) : allBytes (pickleDumps c) :=
  allBytes_append _ _
    (allBytes_append _ _ (allBytes_encNat _) (allBytes_encNat _))
    (allBytes_encInteractions _)

/-! ## Run-length codec (the zlib model) -/

theorem rleDecode_rleEncodeAux :
    ∀ (l : List Nat) (b n : Nat),
      rleDecode (rleEncodeAux b n l) = List.replicate n b ++ l := by
  intro l
  induction l with
  | nil =>
    intro b n
    simp [rleEncodeAux, rleDecode]
  | cons c t ih =>
    intro b n
    by_cases h : c = b ∧ n < 255
    · simp only [rleEncodeAux]
      rw [if_pos h, ih b (n + 1)]
      obtain ⟨hc, _⟩ := h
      subst hc
      rw [List.replicate_succ', List.append_assoc]
      rfl
    · simp only [rleEncodeAux]
      rw [if_neg h]
      simp only [rleDecode]
      rw [ih c 1]
      simp [List.replicate]

theorem rleDecode_rleEncode (l : List Nat) : rleDecode (rleEncode l) = l := by
  cases l with
  | nil => rfl
  | cons b t =>
    simp only [rleEncode]
    rw [rleDecode_rleEncodeAux]
    simp [List.replicate]

theorem allBytes_rleEncodeAux :
    ∀ (l : List Nat) (b n : Nat), b < 256 → n ≤ 255 → allBytes l →
      allBytes (rleEncodeAux b n l) := by
  intro l
  induction l with
  | nil =>
    intro b n hb hn _ x hx
    simp [rleEncodeAux] at hx
    rcases hx with h1 | h1 <;> omega
  | cons c t ih =>
    intro b n hb hn hl
    have hc : c < 256 := hl c (List.mem_cons_self c t)
    have ht : allBytes t := fun y hy => hl y (List.mem_cons_of_mem c hy)
    by_cases h : c = b ∧ n < 255
    · simp only [rleEncodeAux]
      rw [if_pos h]
      exact ih b (n + 1) hb (by omega) ht
    · simp only [rleEncodeAux]
      rw [if_neg h]
      intro x hx
      rcases List.mem_cons.mp hx with h1 | h1
      · omega
      rcases List.mem_cons.mp h1 with h2 | h2
      · omega
      · exact ih c 1 hc (by omega) ht x h2

theorem allBytes_rleEncode (l : List Nat) (hl : allBytes l) : allBytes (rleEncode l) := by
  cases l with
  | nil => intro x hx; simp [rleEncode] at hx
  | cons b t =>
    simp only [rleEncode]
    exact allBytes_rleEncodeAux t b 1 (hl b (List.mem_cons_self b t)) (by omega)
      (fun y hy => hl y (List.mem_cons_of_mem b hy))

/-! ## Base64 round trip -/

theorem b64CharIdx_b64Char : ∀ n : Nat, n < 64 → b64CharIdx (b64Char n) = some n := by
  decide

theorem b64Char_ne_pad : ∀ n : Nat, n < 64 → ¬ (b64Char n = '=') := by
  decide

theorem b64DecodeList_b64EncodeList :
    ∀ l : List Nat, allBytes l → b64DecodeList (b64EncodeList l) = some l := by
  intro l
  induction l using b64EncodeList.induct with
  | case1 => intro _; rfl
  | case2 a =>
    intro hl
    have ha : a < 256 := hl a (by simp)
    have e1 : b64CharIdx (b64Char (a / 4)) = some (a / 4) :=
      b64CharIdx_b64Char _ (by omega)
    have e2 : b64CharIdx (b64Char (a % 4 * 16)) = some (a % 4 * 16) :=
      b64CharIdx_b64Char _ (by omega)
    simp only [b64EncodeList, b64DecodeList, e1, e2]
    simp only [if_pos rfl, and_self, if_true]
    have harith : a / 4 * 4 + a % 4 = a := by omega
    simp [harith]
  | case3 a b =>
    intro hl
    have ha : a < 256 := hl a (by simp)
    have hb : b < 256 := hl b (by simp)
    have e1 : b64CharIdx (b64Char (a / 4)) = some (a / 4) :=
      b64CharIdx_b64Char _ (by omega)
    have e2 : b64CharIdx (b64Char (a % 4 * 16 + b / 16)) = some (a % 4 * 16 + b / 16) :=
      b64CharIdx_b64Char _ (by omega)
    have e3 : b64CharIdx (b64Char (b % 16 * 4)) = some (b % 16 * 4) :=
      b64CharIdx_b64Char _ (by omega)
    have n3 : ¬ (b64Char (b % 16 * 4) = '=') := b64Char_ne_pad _ (by omega)
    simp only [b64EncodeList, b64DecodeList, e1, e2, e3]
    rw [if_neg n3]
    simp only [if_pos rfl, if_true]
    have q1 : a / 4 * 4 + (a % 4 * 16 + b / 16) / 16 = a := by omega
    have q2 : (a % 4 * 16 + b / 16) % 16 * 16 + b % 16 = b := by omega
    simp [q1, q2]
  | case4 a b c rest ih =>
    intro hl
    have ha : a < 256 := hl a (by simp)
    have hb : b < 256 := hl b (by simp)
    have hc : c < 256 := hl c (by simp)
    have hrest : allBytes rest := by
      intro y hy
      exact hl y (by simp [hy])
    have e1 : b64CharIdx (b64Char (a / 4)) = some (a / 4) :=
      b64CharIdx_b64Char _ (by omega)
    have e2 : b64CharIdx (b64Char (a % 4 * 16 + b / 16)) = some (a % 4 * 16 + b / 16) :=
      b64CharIdx_b64Char _ (by omega)
    have e3 : b64CharIdx (b64Char (b % 16 * 4 + c / 64)) = some (b % 16 * 4 + c / 64) :=
      b64CharIdx_b64Char _ (by omega)
    have e4 : b64CharIdx (b64Char (c % 64)) = some (c % 64) :=
      b64CharIdx_b64Char _ (by omega)
    have n3 : ¬ (b64Char (b % 16 * 4 + c / 64) = '=') := b64Char_ne_pad _ (by omega)
    have n4 : ¬ (b64Char (c % 64) = '=') := b64Char_ne_pad _ (by omega)
    simp only [b64EncodeList, b64DecodeList, e1, e2, e3, e4]
    rw [if_neg n3, if_neg n4]
    rw [ih hrest]
    have q1 : a / 4 * 4 + (a % 4 * 16 + b / 16) / 16 = a := by omega
    have q2 : (a % 4 * 16 + b / 16) % 16 * 16 + (b % 16 * 4 + c / 64) / 4 = b := by omega
    have q3 : (b % 16 * 4 + c / 64) % 4 * 64 + c % 64 = c := by omega
    simp [q1, q2, q3]

/-! ## C2 / C8: the serializer round trip and the normalization flag -/

theorem deserialize_encodeCassetteStr (c : CassetteDict) :
    deserialize (encodeCassetteStr c) = some c := by
  unfold deserialize encodeCassetteStr
  have htl : ((b64EncodeList (rleEncode (pickleDumps c))).asString).toList
      = b64EncodeList (rleEncode (pickleDumps c)) := rfl
  rw [htl, b64DecodeList_b64EncodeList _ (allBytes_rleEncode _ (allBytes_pickleDumps c))]
  simp only [rleDecode_rleEncode]
  exact pickleLoads_pickleDumps c

/-- C2: `deserialize` is a left inverse of `serialize`: for every cassette
dict — binary request/response bodies included — deserializing the string
produced by `serialize` returns exactly the dict that was encoded (the input
itself, or its normalization when the `NORMALIZE_CASSETTES` flag is set). -/
theorem C2_deserialize_serialize_roundtrip (flag : Bool) (cfg : NormConfig)
    (c : CassetteDict) :
    deserialize (serialize flag cfg c)
      = some (if flag then normalize_cassette cfg c else c) := by
  unfold serialize
  exact deserialize_encodeCassetteStr _

/-- C8: normalization is applied during serialization iff the
`NORMALIZE_CASSETTES` flag is enabled: with the flag off, `serialize` encodes
the input cassette dict unchanged and `deserialize` recovers exactly the
original; with the flag on, the normalized dict is what gets encoded (and
recovered). -/
theorem C8_normalize_flag_gates_serialization (cfg : NormConfig) (c : CassetteDict) :
    (serialize false cfg c = encodeCassetteStr c
        ∧ deserialize (serialize false cfg c) = some c)
      ∧ (serialize true cfg c = encodeCassetteStr (normalize_cassette cfg c)
        ∧ deserialize (serialize true cfg c) = some (normalize_cassette cfg c)) := by
  refine ⟨⟨rfl, ?_⟩, ⟨rfl, ?_⟩⟩ <;> exact deserialize_encodeCassetteStr _

/-! ## C5: the `_remove_job` deletion guard -/

theorem partitionBeforeL_isPrefixOf :
    ∀ (l : List Char) (sep : Char), (partitionBeforeL sep l).isPrefixOf l = true := by
  intro l sep
  induction l with
  | nil => rfl
  | cons c t ih =>
    by_cases h : c = sep
    · simp [partitionBeforeL, h, List.isPrefixOf]
    · simp only [partitionBeforeL, h, if_false]
      show (c == c && (partitionBeforeL sep t).isPrefixOf t) = true
      simp [ih]

theorem pyStartswith_jobProjectComponent (k : String) :
    pyStartswith k (jobProjectComponent k) = true := by
  unfold pyStartswith jobProjectComponent pyPartitionBefore
  exact partitionBeforeL_isPrefixOf _ _

/-- C5 counterexample: the deletion guard is a string-prefix test, not a
project-component equality: with `TEST_PROJECT_ID = "2222222"` the job key
`22222220/2/3` belongs to the different project `22222220`, yet the assertion
passes and the final apidelete executes. -/
theorem C5_prefix_guard_counterexample :
    jobProjectComponent "22222220/2/3" ≠ "2222222"
      ∧ (removeJobTrace "2222222" "22222220/2/3").2 = true
      ∧ JobOp.apidelete "2/3" ∈ (removeJobTrace "2222222" "22222220/2/3").1 := by
  decide

/-- C5 (amended): in `_remove_job` the final apidelete executes exactly when
the job key starts with `TEST_PROJECT_ID` as a string prefix; when the
assertion aborts no apidelete is executed; and every key whose project-id
component equals `TEST_PROJECT_ID` passes the guard and is deleted.  The
prefix test is weaker than component equality, so a key of a different
project whose id merely extends `TEST_PROJECT_ID` also reaches the apidelete
(see the counterexample). -/
theorem C5_apidelete_iff_prefix_guard (pid k : String) :
    ((∃ x, JobOp.apidelete x ∈ (removeJobTrace pid k).1) ↔ pyStartswith k pid = true)
      ∧ ((removeJobTrace pid k).2 = false →
          ∀ x, JobOp.apidelete x ∉ (removeJobTrace pid k).1)
      ∧ (jobProjectComponent k = pid →
          JobOp.apidelete (pyPartitionAfter k '/') ∈ (removeJobTrace pid k).1) := by
  by_cases hsw : pyStartswith k pid = true
  · refine ⟨⟨fun _ => hsw, fun _ => ?_⟩, ?_, fun _ => ?_⟩
    · exact ⟨pyPartitionAfter k '/', by simp [removeJobTrace, hsw]⟩
    · intro hfalse
      rw [removeJobTrace, if_pos hsw] at hfalse
      simp at hfalse
    · simp [removeJobTrace, hsw]
  · have hsw' : pyStartswith k pid = false := Bool.eq_false_iff.mpr hsw
    refine ⟨⟨?_, fun h => absurd h hsw⟩, fun _ x => ?_, fun hcomp => ?_⟩
    · rintro ⟨x, hx⟩
      rw [removeJobTrace, if_neg hsw] at hx
      simp at hx
    · rw [removeJobTrace, if_neg hsw]
      simp
    · exfalso
      have := pyStartswith_jobProjectComponent k
      rw [hcomp] at this
      exact hsw this

/-- Witness for `C5_apidelete_iff_prefix_guard`: a key genuinely in the test
project reaches the apidelete. -/
theorem C5_apidelete_iff_prefix_guard_witness :
    JobOp.apidelete (pyPartitionAfter "2222222/1/2" '/')
      ∈ (removeJobTrace "2222222" "2222222/1/2").1 :=
  (C5_apidelete_iff_prefix_guard "2222222" "2222222/1/2").2.2 (by decide)

/-! ## C6: `clean_collection` error handling -/

/-- C6: `clean_collection` completes without raising when the backend
answers with 404 (collection not created yet) — whether on the initial
`iter_values` access or on a delete inside the loop — and propagates any
other HTTP error status (such as 500) unchanged. -/
theorem C6_clean_collection_error_handling (s : Nat)
    (deleteResult : String → Except Nat Unit) (items : List CollItem)
    (item0 : CollItem) (hs : s ≠ 404) :
    clean_collection (Except.error 404) deleteResult = Except.ok ()
      ∧ clean_collection (Except.error s) deleteResult = Except.error s
      ∧ clean_collection (Except.ok (item0 :: items)) (fun _ => Except.error 404)
          = Except.ok ()
      ∧ clean_collection (Except.ok (item0 :: items)) (fun _ => Except.error s)
          = Except.error s := by
  refine ⟨rfl, ?_, rfl, ?_⟩
  · simp [clean_collection, hs]
  · simp [clean_collection, deleteLoop, hs]

/-- Witness for `C6_clean_collection_error_handling` at status 500. -/
theorem C6_clean_collection_error_handling_witness :
    clean_collection (Except.error 404) (fun _ => Except.ok ()) = Except.ok ()
      ∧ clean_collection (Except.error 500) (fun _ => Except.ok ()) = Except.error 500
      ∧ clean_collection (Except.ok (⟨"k"⟩ :: [])) (fun _ => Except.error 404)
          = Except.ok ()
      ∧ clean_collection (Except.ok (⟨"k"⟩ :: [])) (fun _ => Except.error 500)
          = Except.error 500 :=
  C6_clean_collection_error_handling 500 (fun _ => Except.ok ()) [] ⟨"k"⟩ (by decide)

/-! ## C7: the `remove_all_jobs` trace -/

theorem settingsDeleteOps_eq (keys : List String) :
    settingsDeleteOps keys
      = (keys.filter (fun k => k != "botgroups")).map JobOp.delSetting := by
  induction keys with
  | nil => rfl
  | cons k t ih =>
    simp only [settingsDeleteOps, List.filterMap_cons, List.filter_cons] at ih ⊢
    simp only [ne_eq, ite_not] at ih ⊢
    by_cases h : k = "botgroups"
    · have h1 : (k != "botgroups") = false := by simp [bne, h]
      simp [h, h1, ih]
    · have h1 : (k != "botgroups") = true := by simp [bne, h]
      simp [h, h1, ih]

/-- The three removal operations for one job key. -/
def removalOps (k : String) : List JobOp :=
  [JobOp.finish k, JobOp.jobqDelete k, JobOp.apidelete (pyPartitionAfter k '/')]

theorem runRemoveJobs_all_in_project (pid : String) :
    ∀ ks : List String, (∀ k ∈ ks, pyStartswith k pid = true) →
      runRemoveJobs pid ks = (ks.flatMap removalOps, true) := by
  intro ks
  induction ks with
  | nil => intro _; rfl
  | cons k rest ih =>
    intro h
    have hk : pyStartswith k pid = true := h k (List.mem_cons_self k rest)
    have hrest := ih (fun y hy => h y (List.mem_cons_of_mem k hy))
    simp only [runRemoveJobs, removeJobTrace, hk, if_true, hrest]
    simp [List.flatMap_cons, removalOps]

theorem getD_mem_or_default {α : Type} (l : List α) (i : Nat) (d : α) :
    l.getD i d ∈ l ∨ l.getD i d = d := by
  by_cases h : i < l.length
  · left
    rw [List.getD_eq_getElem l d h]
    exact List.getElem_mem h
  · right
    exact List.getD_eq_default l d (Nat.le_of_not_lt h)

theorem runQueues_expansion (pid : String) (oracle : List (List String))
    (hall : ∀ ks ∈ oracle, ∀ k ∈ ks, pyStartswith k pid = true) :
    ∀ (qs : List String) (i : Nat),
      runQueues pid oracle i qs
        = ((List.enumFrom i qs).flatMap (fun p =>
            JobOp.querySummary p.2 :: (oracle.getD p.1 []).flatMap removalOps), true) := by
  intro qs
  induction qs with
  | nil => intro i; rfl
  | cons q qs ih =>
    intro i
    have hks : ∀ k ∈ oracle.getD i [], pyStartswith k pid = true := by
      intro k hk
      rcases getD_mem_or_default oracle i [] with hmem | hdef
      · exact hall _ hmem k hk
      · rw [hdef] at hk
        simp at hk
    simp only [runQueues, runRemoveJobs_all_in_project pid _ hks, ih (i + 1)]
    simp [List.flatMap_cons]

theorem filterMap_query_delSettings (l : List String) :
    (l.map JobOp.delSetting).filterMap (fun op =>
        match op with
        | JobOp.querySummary q => some q
        | _ => none) = [] := by
  induction l with
  | nil => rfl
  | cons k t ih => simp [List.filterMap_cons, ih]

theorem filterMap_query_singleton_save :
    ([JobOp.saveSettings]).filterMap (fun op =>
        match op with
        | JobOp.querySummary q => some q
        | _ => none) = [] := rfl

theorem filterMap_query_removalOps (ks : List String) :
    (ks.flatMap removalOps).filterMap (fun op =>
        match op with
        | JobOp.querySummary q => some q
        | _ => none) = [] := by
  induction ks with
  | nil => rfl
  | cons k t ih =>
    simp [List.flatMap_cons, List.filterMap_append, removalOps, List.filterMap_cons, ih]

theorem delSetting_not_mem_removalOps (x k : String) :
    JobOp.delSetting x ∉ removalOps k := by
  simp [removalOps]

theorem delSetting_not_mem_flatMap_removalOps (x : String) (ks : List String) :
    JobOp.delSetting x ∉ ks.flatMap removalOps := by
  induction ks with
  | nil => simp
  | cons k t ih =>
    simp only [List.flatMap_cons, List.mem_append]
    rintro (h | h)
    · exact delSetting_not_mem_removalOps x k h
    · exact ih h

theorem delSetting_not_mem_queuePart (x : String) (oracle : List (List String))
    (l : List (Nat × String)) :
    JobOp.delSetting x ∉ l.flatMap (fun p =>
      JobOp.querySummary p.2 :: (oracle.getD p.1 []).flatMap removalOps) := by
  induction l with
  | nil => simp
  | cons p t ih =>
    simp only [List.flatMap_cons, List.mem_append, List.mem_cons]
    rintro ((h | h) | h)
    · exact absurd h (by simp)
    · exact delSetting_not_mem_flatMap_removalOps x _ h
    · exact ih h

/-- C7 (as stated): assuming every job key the six summary calls return
belongs to the test project (so no assertion aborts), the trace of
`remove_all_jobs` is exactly: one settings deletion per non-`botgroups` key,
the save, then for each of the six (pass, queue) steps — pending, running,
finished, twice in that order — the summary query followed by the removal
(finish, jobq delete, apidelete) of every returned job.  Additionally: the
summary queries in order are exactly pending, running, finished, pending,
running, finished; `botgroups` is never deleted; and every other settings key
is. -/
theorem C7_remove_all_jobs_trace (pid : String) (settingsKeys : List String)
    (oracle : List (List String))
    (hall : ∀ ks ∈ oracle, ∀ k ∈ ks, pyStartswith k pid = true) :
    remove_all_jobs pid settingsKeys oracle
        = ((settingsKeys.filter (fun k => k != "botgroups")).map JobOp.delSetting
            ++ [JobOp.saveSettings]
            ++ (List.enumFrom 0 queueNamesTwice).flatMap (fun p =>
              JobOp.querySummary p.2 :: (oracle.getD p.1 []).flatMap removalOps), true)
      ∧ (remove_all_jobs pid settingsKeys oracle).1.filterMap (fun op =>
            match op with
            | JobOp.querySummary q => some q
            | _ => none)
          = ["pending", "running", "finished", "pending", "running", "finished"]
      ∧ JobOp.delSetting "botgroups" ∉ (remove_all_jobs pid settingsKeys oracle).1
      ∧ ∀ k ∈ settingsKeys, k ≠ "botgroups"
          → JobOp.delSetting k ∈ (remove_all_jobs pid settingsKeys oracle).1 := by
  have hq := runQueues_expansion pid oracle hall queueNamesTwice 0
  have hmain : remove_all_jobs pid settingsKeys oracle
      = ((settingsKeys.filter (fun k => k != "botgroups")).map JobOp.delSetting
          ++ [JobOp.saveSettings]
          ++ (List.enumFrom 0 queueNamesTwice).flatMap (fun p =>
            JobOp.querySummary p.2 :: (oracle.getD p.1 []).flatMap removalOps), true) := by
    simp only [remove_all_jobs, hq, settingsDeleteOps_eq, List.append_assoc]
  refine ⟨hmain, ?_, ?_, ?_⟩
  · rw [hmain]
    simp only [List.filterMap_append]
    rw [filterMap_query_delSettings, filterMap_query_singleton_save]
    simp only [queueNamesTwice]
    simp [List.filterMap_append, List.filterMap_cons, filterMap_query_removalOps]
  · rw [hmain]
    intro hmem
    simp only [List.append_assoc, List.mem_append] at hmem
    rcases hmem with h | h | h
    · rcases List.mem_map.mp h with ⟨k, hk, he⟩
      have hkb : k = "botgroups" := by
        injection he
      have := (List.mem_filter.mp hk).2
      rw [hkb] at this
      simp at this
    · simp at h
    · exact delSetting_not_mem_queuePart "botgroups" oracle _ h
  · intro k hk hkb
    rw [hmain]
    simp only [List.append_assoc, List.mem_append]
    left
    exact List.mem_map.mpr ⟨k, List.mem_filter.mpr ⟨hk, by simp [bne, hkb]⟩, rfl⟩

/-- Witness for `C7_remove_all_jobs_trace` with one recorded pending job. -/
theorem C7_remove_all_jobs_trace_witness :
    remove_all_jobs "2222222" ["foo", "botgroups"] [["2222222/1/1"]]
        = ((["foo", "botgroups"].filter (fun k => k != "botgroups")).map JobOp.delSetting
            ++ [JobOp.saveSettings]
            ++ (List.enumFrom 0 queueNamesTwice).flatMap (fun p =>
              JobOp.querySummary p.2
                :: ([["2222222/1/1"]].getD p.1 []).flatMap removalOps), true) :=
  (C7_remove_all_jobs_trace "2222222" ["foo", "botgroups"] [["2222222/1/1"]]
    (by decide)).1

end Spec2Proof
